import Mathlib

/-
Verification of the bounded-concurrency download engine of `url_downloader`.

The engine under study is `download_urls` in `src/url_downloader/__init__.py`:

  - `DownloadSummary` is a mutable record of five counters, with a derived
    `num_completed` property summing four of them (duplicates excluded).
  - `handle_response` (a nested closure) classifies one finished fetch task:
    timeout, HTTP status error, unexpected error, or success; on success it
    computes a destination path (content hash or last URL path segment),
    detects a collision against the filesystem, and writes the body.
  - The scheduler admits fetch tasks under an `asyncio.Semaphore`, and a
    done-callback releases the slot, runs `handle_response`, and releases a
    completion `Lock` once `num_completed == len(urls)`; the caller blocks on
    a second `lock.acquire()`.

Modelling decisions (all traced to the source):
  - Bytes are `List Nat`; paths and URLs are `String`.
  - The filesystem is a record of existing files (path, content), existing
    directories, and the set of paths at which `Path.write_bytes` raises an
    OSError (external nondeterminism of the disk).  `Path.exists` is true for
    files and directories alike.
  - `handle_response` closes over the *loop variable* `url` of the admission
    `for` loop (Python late binding), so it receives both that loop variable
    (`loop_url`, used for the filename and the timeout/unexpected log lines)
    and the URL of the finished task (`fetched_url`, which appears in the
    `HTTPStatusError` message built by httpx from the response itself).
  - A `raised = true` result models an exception escaping `handle_response`
    (only possible at `download_path.write_bytes`, which sits outside the
    `try`); the done-callback then skips the completion-lock check.
  - The scheduler is a transition system driven by a schedule of actions.
    asyncio runs a single thread, so callbacks only run while the main
    coroutine is suspended: either inside `semaphore.acquire()` with no free
    slot, or in the final `lock.acquire()`.  The `complete` action is guarded
    accordingly, and `spawn` is greedy (enabled exactly when the loop would
    proceed).
-/

/-- One byte string (a Python `bytes` value). -/
abbrev Bytes := List Nat

/-- `DownloadSummary` from `src/url_downloader/__init__.py`, lines 16-22. -/
structure DownloadSummary where
  num_downloaded : Nat := 0
  num_duplicates : Nat := 0
  num_timeout : Nat := 0
  num_status_errors : Nat := 0
  num_unexpected_error : Nat := 0
deriving DecidableEq, Inhabited, Repr

/-- The `num_completed` property (lines 24-31): the sum of the four
classification counters; `num_duplicates` is not a separate summand. -/
def DownloadSummary.num_completed (s : DownloadSummary) : Nat :=
  s.num_downloaded + s.num_timeout + s.num_status_errors + s.num_unexpected_error

/-- The all-zero summary built by `DownloadSummary()` at job start. -/
def zeroSummary : DownloadSummary := ⟨0, 0, 0, 0, 0⟩

/-- The terminal result of one fetch task, as observed by
`finished_task.result()`: a response (status code and body), an httpx
`TimeoutException`, or any other exception. -/
inductive FetchOutcome where
  | success (status : Nat) (body : Bytes)
  | timeout
  | error
deriving DecidableEq, Inhabited, Repr

/-- Warning/error log lines emitted by `handle_response` via `LOG`.  (The
`LOG.debug(ProgressStatus(...))` progress event is a separate channel and is
not recorded here.) -/
inductive LogEvent where
  | warnTimeout (url : String)
  | warnStatus (status : Nat) (url : String)
  | errUnexpected (url : String)
  | warnExists (path : String)
deriving DecidableEq, Inhabited, Repr

/-- The filesystem visible to the engine: regular files with contents,
directories (the output directory is assumed to exist), and the set of paths
at which `Path.write_bytes` raises an `OSError`. -/
structure FileSystem where
  files : List (String × Bytes)
  dirs : List String
  failWrites : List String
deriving DecidableEq, Inhabited, Repr

/-- `Path.exists()`: true for an existing regular file or directory. -/
def pathExists (fs : FileSystem) (p : String) : Bool :=
  fs.dirs.contains p || fs.files.any (fun e => e.fst == p)

/-- `httpx.Response.is_success`, the condition under which
`raise_for_status()` does not raise: status in 200..299. -/
def is_success (status : Nat) : Bool :=
  decide (200 ≤ status ∧ status < 300)

/-- Scheme characters accepted by `urllib.parse.urlparse` after the leading
letter: alphanumerics and `+`, `-`, `.`. -/
def isSchemeChar (c : Char) : Bool :=
  c.isAlphanum || c == '+' || c == '-' || c == '.'

/-- Strip a leading `scheme:` as `urllib.parse.urlparse` does: the text
before the first `:` must be nonempty, start with a letter, and consist of
scheme characters. -/
def splitScheme (l : List Char) : List Char :=
  let pre := l.takeWhile (fun c => c != ':')
  if pre.length < l.length ∧ pre ≠ [] ∧ (pre.headD 'a').isAlpha ∧ pre.all isSchemeChar then
    l.drop (pre.length + 1)
  else l

/-- Strip a leading `//netloc` as `urlparse` does: after `//`, the authority
extends to the next `/`, `?`, or `#`. -/
def dropNetloc : List Char → List Char
  | '/' :: '/' :: rest => rest.dropWhile (fun c => c != '/' && c != '?' && c != '#')
  | l => l

/-- The `path` component of `urllib.parse.urlparse(url)`: what remains after
scheme and netloc, truncated at the first `?` (query) or `#` (fragment). -/
def urlparsePath (url : String) : String :=
  ((dropNetloc (splitScheme url.toList)).takeWhile (fun c => c != '?' && c != '#')).asString

/-- Split a character list on `/`. -/
def splitSlash : List Char → List (List Char)
  | [] => [[]]
  | c :: rest =>
    match splitSlash rest with
    | [] => [[]]
    | h :: t => if c == '/' then [] :: h :: t else (c :: h) :: t

/-- `PurePath(p).name`: the last path component, after pathlib drops empty
components and `.` components; `""` when there is none. -/
def pathName (p : String) : String :=
  (((splitSlash p.toList).filter (fun c => !c.isEmpty && c != ['.'])).getLastD []).asString

/-- `dir / fname` on pathlib paths, for a relative child name: joining with
`""` leaves the path unchanged (`Path('out') / '' == Path('out')`). -/
def joinPath (dir fname : String) : String :=
  if fname = "" then dir else dir ++ "/" ++ fname

/-- The destination filename chosen in `handle_response` (lines 89-92): the
hash of the body when `use_hashing` is set, otherwise
`PurePath(urlparse(url).path).name` where `url` is the loop variable. -/
def destName (use_hashing : Bool) (hash_function : Bytes → String)
    (loop_url : String) (body : Bytes) : String :=
  if use_hashing then hash_function body else pathName (urlparsePath loop_url)

/-- The result of one run of `handle_response`: the updated summary, the
updated filesystem, the warning/error log lines emitted, and whether an
exception escaped the callback (`write_bytes` raising outside the `try`). -/
structure HandleResult where
  summary : DownloadSummary
  fs : FileSystem
  logs : List LogEvent
  raised : Bool
deriving DecidableEq, Inhabited, Repr

/-- `handle_response` (lines 70-100 of `src/url_downloader/__init__.py`).

`loop_url` is the value of the closed-over loop variable `url` at the moment
the callback runs; `fetched_url` is the URL of the finished task (it only
surfaces in the `HTTPStatusError` message, which httpx builds from the
response's own request).  On success with acceptable status the destination
path is computed, a collision increments `num_duplicates` without a write,
otherwise the body is written; `num_downloaded` is incremented in both of
those branches (line 100).  A failing write raises before line 100, so no
counter moves and `raised` is set. -/
def handle_response (use_hashing : Bool) (hash_function : Bytes → String)
    (output_dir : String) (loop_url fetched_url : String)
    (outcome : FetchOutcome) (fs : FileSystem) (summary : DownloadSummary) :
    HandleResult :=
  match outcome with
  | FetchOutcome.timeout =>
    ⟨{ summary with num_timeout := summary.num_timeout + 1 }, fs,
      [LogEvent.warnTimeout loop_url], false⟩
  | FetchOutcome.error =>
    ⟨{ summary with num_unexpected_error := summary.num_unexpected_error + 1 }, fs,
      [LogEvent.errUnexpected loop_url], false⟩
  | FetchOutcome.success status body =>
    if is_success status then
      let download_path := joinPath output_dir (destName use_hashing hash_function loop_url body)
      if pathExists fs download_path then
        ⟨{ summary with
            num_duplicates := summary.num_duplicates + 1,
            num_downloaded := summary.num_downloaded + 1 }, fs,
          [LogEvent.warnExists download_path], false⟩
      else if fs.failWrites.contains download_path then
        ⟨summary, fs, [], true⟩
      else
        ⟨{ summary with num_downloaded := summary.num_downloaded + 1 },
          { fs with files := (download_path, body) :: fs.files }, [], false⟩
    else
      ⟨{ summary with num_status_errors := summary.num_status_errors + 1 }, fs,
        [LogEvent.warnStatus status fetched_url], false⟩

/-- The static data of one `download_urls` job: the URL list, the outcome the
network produces for each URL (index-aligned), and the configuration
parameters.  `hashFn` is the resolved `hash_function` (line 64 defaults it to
the SHA-256 hex digest). -/
structure JobConfig where
  urls : List String
  outcomes : List FetchOutcome
  numConcurrent : Nat
  useHashing : Bool
  hashFn : Bytes → String
  outputDir : String

/-- The state of the `download_urls` coroutine and its callbacks.

`nextIndex` is the index of the admission-loop iteration being processed
(tasks `0 .. nextIndex-1` have been created); `sem` is the free-slot count of
the semaphore; `pending` lists indices of created tasks whose callback has
not yet run; `completedOrder` records callback runs in completion order;
`numRaised` counts callbacks that died on an escaped exception;
`lockReleased` records whether the completion lock has been released, which
is what lets the final `await lock.acquire()` return. -/
structure JState where
  nextIndex : Nat
  sem : Nat
  pending : List Nat
  completedOrder : List Nat
  summary : DownloadSummary
  fs : FileSystem
  logs : List LogEvent
  lockReleased : Bool
  numRaised : Nat
deriving DecidableEq, Inhabited, Repr

/-- The state at the first `await lock.acquire()`: nothing admitted, all
slots free, zero summary. -/
def initState (cfg : JobConfig) (fs0 : FileSystem) : JState :=
  ⟨0, cfg.numConcurrent, [], [], zeroSummary, fs0, [], false, 0⟩

/-- The value of the closed-over loop variable `url` while the main coroutine
is suspended: `urls[nextIndex]` while the loop is still admitting (the `for`
statement assigns `url` before `await semaphore.acquire()`), and the last URL
once the loop has finished. -/
def loopUrl (cfg : JobConfig) (s : JState) : String :=
  cfg.urls.getD (min s.nextIndex (cfg.urls.length - 1)) ""

/-- One iteration of the admission loop completing its
`await semaphore.acquire()`: a slot is consumed and task `nextIndex` is
created with its done-callback attached. -/
def spawnStep (s : JState) : JState :=
  { s with
      nextIndex := s.nextIndex + 1,
      sem := s.sem - 1,
      pending := s.pending ++ [s.nextIndex] }

/-- The `handle_response` invocation performed by the done-callback of task
`i` in state `s`. -/
def respOf (cfg : JobConfig) (s : JState) (i : Nat) : HandleResult :=
  handle_response cfg.useHashing cfg.hashFn cfg.outputDir (loopUrl cfg s)
    (cfg.urls.getD i "") (cfg.outcomes.getD i FetchOutcome.error) s.fs s.summary

/-- The done-callback of task `i` (lines 102-106): release the semaphore,
run `handle_response`, and release the completion lock if every URL is now
classified.  An exception escaping `handle_response` skips the lock check
(asyncio merely logs it). -/
def completeStep (cfg : JobConfig) (s : JState) (i : Nat) : JState :=
  { s with
      sem := s.sem + 1,
      pending := s.pending.erase i,
      completedOrder := s.completedOrder ++ [i],
      summary := (respOf cfg s i).summary,
      fs := (respOf cfg s i).fs,
      logs := s.logs ++ (respOf cfg s i).logs,
      numRaised := s.numRaised + (if (respOf cfg s i).raised then 1 else 0),
      lockReleased := s.lockReleased ||
        (!(respOf cfg s i).raised &&
          ((respOf cfg s i).summary.num_completed == cfg.urls.length)) }

/-- An event of one job execution: either the admission loop makes progress,
or the done-callback of a finished task runs. -/
inductive JobAction where
  | spawn
  | complete (i : Nat)
deriving DecidableEq, Repr

/-- Apply one event if it is enabled.

`spawn` requires a URL left to admit and a free slot (with a free slot
`Semaphore.acquire` returns without yielding, so the loop is greedy).
`complete i` requires task `i` to be outstanding and the main coroutine to be
suspended: asyncio is single-threaded, and the only suspension points of
`download_urls` are `semaphore.acquire()` with no free slot and the final
`lock.acquire()` after every URL has been admitted. -/
def applyAction (cfg : JobConfig) (s : JState) : JobAction → Option JState
  | JobAction.spawn =>
    if s.nextIndex < cfg.urls.length ∧ 0 < s.sem then some (spawnStep s) else none
  | JobAction.complete i =>
    if (s.nextIndex = cfg.urls.length ∨ s.sem = 0) ∧ i ∈ s.pending then
      some (completeStep cfg s i)
    else none

/-- Run a schedule of events from the initial state; `none` when the
schedule names an event that cannot occur. -/
def runActions (cfg : JobConfig) (fs0 : FileSystem) (acts : List JobAction) : Option JState :=
  acts.foldlM (applyAction cfg) (initState cfg fs0)

/-- The master invariant of the scheduler.

`sem_pending`: semaphore accounting — free slots plus in-flight tasks equal
the configured limit.  `perm`: every admitted index is in flight or
completed, exactly once.  `completed_count`: each callback that returned
normally contributed exactly one to `num_completed`.  `lock`: the completion
lock is only released in a state where every URL was admitted, none is in
flight, every callback returned normally, and `num_completed` equals the URL
count.  `eff`: with a concurrency limit at least the URL count, the loop
never suspends, so no callback runs before the loop is done admitting. -/
structure JobInv (cfg : JobConfig) (s : JState) : Prop where
  sem_pending : s.sem + s.pending.length = cfg.numConcurrent
  next_le : s.nextIndex ≤ cfg.urls.length
  perm : List.Perm (s.pending ++ s.completedOrder) (List.range s.nextIndex)
  completed_count : s.summary.num_completed + s.numRaised = s.completedOrder.length
  dup_le : s.summary.num_duplicates ≤ s.summary.num_downloaded
  lock : s.lockReleased = true →
    s.summary.num_completed = cfg.urls.length ∧ s.pending = [] ∧
      s.nextIndex = cfg.urls.length ∧ s.numRaised = 0
  eff : cfg.urls.length ≤ cfg.numConcurrent → s.nextIndex < cfg.urls.length →
    s.completedOrder = []

/-- A placeholder hash function for jobs that run with `use_hashing = False`
(the classifier never calls it on those paths). -/
def dummyHash : Bytes → String := fun _ => "h"

/-- An empty output directory `out` on a working disk. -/
def fsOut : FileSystem := ⟨[], ["out"], []⟩

def urlA : String := "http://h/a.txt"

def urlB : String := "http://h/b.txt"

/-- One URL whose fetch succeeds. -/
def cfg1 : JobConfig := ⟨[urlA], [FetchOutcome.success 200 [1]], 1, false, dummyHash, "out"⟩

def acts1 : List JobAction := [JobAction.spawn, JobAction.complete 0]

def state1 : JState := (runActions cfg1 fsOut acts1).getD default

/-- Two URLs with distinct filenames, both fetches succeed, limit 2. -/
def cfgAB : JobConfig :=
  ⟨[urlA, urlB], [FetchOutcome.success 200 [1], FetchOutcome.success 200 [2]], 2, false,
    dummyHash, "out"⟩

def state3 : JState := (runActions cfgAB fsOut [JobAction.spawn]).getD default

def acts4 : List JobAction :=
  [JobAction.spawn, JobAction.spawn, JobAction.complete 0, JobAction.complete 1]

/-- Two URLs where the first fetch times out. -/
def cfg7 : JobConfig :=
  ⟨[urlA, urlB], [FetchOutcome.timeout, FetchOutcome.success 200 [2]], 2, false,
    dummyHash, "out"⟩

def acts7 : List JobAction := [JobAction.spawn, JobAction.spawn, JobAction.complete 0]

/-- The empty URL collection. -/
def cfg8 : JobConfig := ⟨[], [], 5, false, dummyHash, "out"⟩

/-- One URL whose fetch succeeds, on a disk where the write raises. -/
def cfg6 : JobConfig := ⟨[urlA], [FetchOutcome.success 200 [7]], 1, false, dummyHash, "out"⟩

/-- A filesystem where writing `out/a.txt` raises an `OSError`. -/
def fsFail : FileSystem := ⟨[], ["out"], ["out/a.txt"]⟩

def state6 : JState := (runActions cfg6 fsFail [JobAction.spawn, JobAction.complete 0]).getD default

/-- An output directory already holding `a.txt` (for the collision branch). -/
def fsColl : FileSystem := ⟨[("out/a.txt", [9])], ["out"], []⟩

/-- A job of two URLs whose fetches both succeed (the same-filename scenario
is obtained by hypotheses equating their computed names). -/
def cfg5 (u1 u2 : String) (hf : Bytes → String) (st1 st2 : Nat) (b1 b2 : Bytes)
    (n : Nat) (od : String) : JobConfig :=
  ⟨[u1, u2], [FetchOutcome.success st1 b1, FetchOutcome.success st2 b2], n, false, hf, od⟩

/-- Evolution of filesystem, summary and completion order in a two-URL job
whose completions all name the same destination: after the first completion
the first body sits at the destination; the second completion is a duplicate
and writes nothing. -/
def dupInv (od u2 : String) (b1 b2 : Bytes) (fs0 : FileSystem) (t : JState) : Prop :=
  (t.completedOrder = [] ∧ t.fs = fs0 ∧ t.summary = zeroSummary) ∨
  (∃ k, k < 2 ∧ t.completedOrder = [k] ∧
    t.fs = { fs0 with
      files := (joinPath od (pathName (urlparsePath u2)), if k = 0 then b1 else b2) :: fs0.files } ∧
    t.summary = ⟨1, 0, 0, 0, 0⟩) ∨
  (∃ k j, k < 2 ∧ t.completedOrder = [k, j] ∧
    t.fs = { fs0 with
      files := (joinPath od (pathName (urlparsePath u2)), if k = 0 then b1 else b2) :: fs0.files } ∧
    t.summary = ⟨2, 1, 0, 0, 0⟩)

def state5 : JState :=
  (runActions (cfg5 "http://a/f.txt" "http://b/f.txt" dummyHash 200 200 [1] [2] 2 "out")
    fsOut acts4).getD default

/-- A timeout increments `num_timeout` only, warns with the loop-variable
URL, and touches neither the filesystem. -/
theorem handle_response_timeout (uh : Bool) (hf : Bytes → String) (od lu fu : String)
    (fs : FileSystem) (s : DownloadSummary) :
    handle_response uh hf od lu fu FetchOutcome.timeout fs s =
      ⟨{ s with num_timeout := s.num_timeout + 1 }, fs, [LogEvent.warnTimeout lu], false⟩ := rfl

/-- An unexpected error increments `num_unexpected_error` only. -/
theorem handle_response_error (uh : Bool) (hf : Bytes → String) (od lu fu : String)
    (fs : FileSystem) (s : DownloadSummary) :
    handle_response uh hf od lu fu FetchOutcome.error fs s =
      ⟨{ s with num_unexpected_error := s.num_unexpected_error + 1 }, fs,
        [LogEvent.errUnexpected lu], false⟩ := rfl

/-- A non-2xx status increments `num_status_errors` only; the warning carries
the fetched URL (httpx builds the message from the response). -/
theorem handle_response_status (uh : Bool) (hf : Bytes → String) (od lu fu : String)
    (st : Nat) (body : Bytes) (fs : FileSystem) (s : DownloadSummary)
    (h : is_success st = false) :
    handle_response uh hf od lu fu (FetchOutcome.success st body) fs s =
      ⟨{ s with num_status_errors := s.num_status_errors + 1 }, fs,
        [LogEvent.warnStatus st fu], false⟩ := by
  simp [handle_response, h]

/-- Collision branch: the destination exists, so `num_duplicates` and
`num_downloaded` are both incremented and nothing is written. -/
theorem handle_response_dup (uh : Bool) (hf : Bytes → String) (od lu fu : String)
    (st : Nat) (body : Bytes) (fs : FileSystem) (s : DownloadSummary)
    (h : is_success st = true)
    (hex : pathExists fs (joinPath od (destName uh hf lu body)) = true) :
    handle_response uh hf od lu fu (FetchOutcome.success st body) fs s =
      ⟨{ s with
          num_duplicates := s.num_duplicates + 1,
          num_downloaded := s.num_downloaded + 1 }, fs,
        [LogEvent.warnExists (joinPath od (destName uh hf lu body))], false⟩ := by
  simp [handle_response, h, hex]

/-- Fresh-path branch with a working disk: the whole body is written and
only `num_downloaded` is incremented. -/
theorem handle_response_write (uh : Bool) (hf : Bytes → String) (od lu fu : String)
    (st : Nat) (body : Bytes) (fs : FileSystem) (s : DownloadSummary)
    (h : is_success st = true)
    (hex : pathExists fs (joinPath od (destName uh hf lu body)) = false)
    (hfw : fs.failWrites.contains (joinPath od (destName uh hf lu body)) = false) :
    handle_response uh hf od lu fu (FetchOutcome.success st body) fs s =
      ⟨{ s with num_downloaded := s.num_downloaded + 1 },
        { fs with files := (joinPath od (destName uh hf lu body), body) :: fs.files },
        [], false⟩ := by
  have hfw' : joinPath od (destName uh hf lu body) ∉ fs.failWrites := by simpa using hfw
  simp [handle_response, h, hex, hfw']

/-- Fresh-path branch with a failing disk: `write_bytes` raises outside the
`try`, so the exception escapes with no counter moved, no write recorded,
and no `LOG` line. -/
theorem handle_response_raise (uh : Bool) (hf : Bytes → String) (od lu fu : String)
    (st : Nat) (body : Bytes) (fs : FileSystem) (s : DownloadSummary)
    (h : is_success st = true)
    (hex : pathExists fs (joinPath od (destName uh hf lu body)) = false)
    (hfw : fs.failWrites.contains (joinPath od (destName uh hf lu body)) = true) :
    handle_response uh hf od lu fu (FetchOutcome.success st body) fs s =
      ⟨s, fs, [], true⟩ := by
  have hfw' : joinPath od (destName uh hf lu body) ∈ fs.failWrites := by simpa using hfw
  simp [handle_response, h, hex, hfw']

/-- When the callback raises, summary and filesystem are untouched. -/
theorem hr_raised (uh : Bool) (hf : Bytes → String) (od lu fu : String)
    (oc : FetchOutcome) (fs : FileSystem) (s : DownloadSummary)
    (h : (handle_response uh hf od lu fu oc fs s).raised = true) :
    (handle_response uh hf od lu fu oc fs s).summary = s ∧
      (handle_response uh hf od lu fu oc fs s).fs = fs := by
  cases oc with
  | timeout => simp [handle_response] at h
  | error => simp [handle_response] at h
  | success st body =>
    by_cases hs : is_success st
    · by_cases hex : pathExists fs (joinPath od (destName uh hf lu body)) = true
      · simp [handle_response_dup uh hf od lu fu st body fs s hs hex] at h
      · rw [Bool.not_eq_true] at hex
        by_cases hfw : fs.failWrites.contains (joinPath od (destName uh hf lu body)) = true
        · rw [handle_response_raise uh hf od lu fu st body fs s hs hex hfw]
          exact ⟨rfl, rfl⟩
        · rw [Bool.not_eq_true] at hfw
          simp [handle_response_write uh hf od lu fu st body fs s hs hex hfw] at h
    · rw [Bool.not_eq_true] at hs
      simp [handle_response_status uh hf od lu fu st body fs s hs] at h

/-- When the callback returns normally, exactly one of the four
`num_completed` summands has grown by one. -/
theorem hr_completed (uh : Bool) (hf : Bytes → String) (od lu fu : String)
    (oc : FetchOutcome) (fs : FileSystem) (s : DownloadSummary)
    (h : (handle_response uh hf od lu fu oc fs s).raised = false) :
    (handle_response uh hf od lu fu oc fs s).summary.num_completed = s.num_completed + 1 := by
  cases oc with
  | timeout => simp [handle_response, DownloadSummary.num_completed]; omega
  | error => simp [handle_response, DownloadSummary.num_completed]; omega
  | success st body =>
    by_cases hs : is_success st
    · by_cases hex : pathExists fs (joinPath od (destName uh hf lu body)) = true
      · rw [handle_response_dup uh hf od lu fu st body fs s hs hex]
        simp [DownloadSummary.num_completed]; omega
      · rw [Bool.not_eq_true] at hex
        by_cases hfw : fs.failWrites.contains (joinPath od (destName uh hf lu body)) = true
        · simp [handle_response_raise uh hf od lu fu st body fs s hs hex hfw] at h
        · rw [Bool.not_eq_true] at hfw
          rw [handle_response_write uh hf od lu fu st body fs s hs hex hfw]
          simp [DownloadSummary.num_completed]; omega
    · rw [Bool.not_eq_true] at hs
      rw [handle_response_status uh hf od lu fu st body fs s hs]
      simp [DownloadSummary.num_completed]; omega

/-- The classifier can only increment `num_duplicates` together with
`num_downloaded`, so the inequality between them is preserved. -/
theorem hr_dup_le (uh : Bool) (hf : Bytes → String) (od lu fu : String)
    (oc : FetchOutcome) (fs : FileSystem) (s : DownloadSummary)
    (h : s.num_duplicates ≤ s.num_downloaded) :
    (handle_response uh hf od lu fu oc fs s).summary.num_duplicates ≤
      (handle_response uh hf od lu fu oc fs s).summary.num_downloaded := by
  cases oc with
  | timeout => simpa [handle_response] using h
  | error => simpa [handle_response] using h
  | success st body =>
    by_cases hs : is_success st
    · by_cases hex : pathExists fs (joinPath od (destName uh hf lu body)) = true
      · rw [handle_response_dup uh hf od lu fu st body fs s hs hex]; simpa using h
      · rw [Bool.not_eq_true] at hex
        by_cases hfw : fs.failWrites.contains (joinPath od (destName uh hf lu body)) = true
        · rw [handle_response_raise uh hf od lu fu st body fs s hs hex hfw]; simpa using h
        · rw [Bool.not_eq_true] at hfw
          rw [handle_response_write uh hf od lu fu st body fs s hs hex hfw]
          simp; omega
    · rw [Bool.not_eq_true] at hs
      rw [handle_response_status uh hf od lu fu st body fs s hs]; simpa using h

theorem jobInv_init (cfg : JobConfig) (fs0 : FileSystem) : JobInv cfg (initState cfg fs0) := by
  refine { sem_pending := ?_, next_le := ?_, perm := ?_, completed_count := ?_,
           dup_le := ?_, lock := ?_, eff := ?_ } <;>
    simp [initState, zeroSummary, DownloadSummary.num_completed]

theorem jobInv_step (cfg : JobConfig) (t : JState) (a : JobAction) (u : JState)
    (hInv : JobInv cfg t) (h : applyAction cfg t a = some u) : JobInv cfg u := by
  cases a with
  | spawn =>
    by_cases hc : t.nextIndex < cfg.urls.length ∧ 0 < t.sem
    · rw [applyAction, if_pos hc] at h
      obtain ⟨hlt, hsem⟩ := hc
      injection h with h
      subst h
      refine { sem_pending := ?_, next_le := ?_, perm := ?_, completed_count := ?_,
               dup_le := ?_, lock := ?_, eff := ?_ }
      · simp only [spawnStep, List.length_append, List.length_singleton]
        have := hInv.sem_pending
        omega
      · simp only [spawnStep]; omega
      · simp only [spawnStep, List.range_succ]
        rw [List.append_assoc]
        refine List.Perm.trans (List.Perm.append_left _ List.perm_append_comm) ?_
        rw [← List.append_assoc]
        exact List.Perm.append_right _ hInv.perm
      · simpa [spawnStep] using hInv.completed_count
      · simpa [spawnStep] using hInv.dup_le
      · intro hlr
        simp only [spawnStep] at hlr
        exact absurd (hInv.lock hlr).2.2.1 (by omega)
      · intro hle hlt'
        simpa [spawnStep] using hInv.eff hle (by omega)
    · rw [applyAction, if_neg hc] at h
      exact Option.noConfusion h
  | complete i =>
    by_cases hc : (t.nextIndex = cfg.urls.length ∨ t.sem = 0) ∧ i ∈ t.pending
    · rw [applyAction, if_pos hc] at h
      obtain ⟨hsusp, hmem⟩ := hc
      injection h with h
      subst h
      have hplen : 0 < t.pending.length := List.length_pos.mpr (List.ne_nil_of_mem hmem)
      have herase : (t.pending.erase i).length = t.pending.length - 1 :=
        List.length_erase_of_mem hmem
      have hperm' :
          List.Perm (t.pending.erase i ++ (t.completedOrder ++ [i]))
            (List.range t.nextIndex) := by
        refine List.Perm.trans ?_ hInv.perm
        refine List.Perm.trans (List.Perm.append_left _ List.perm_append_comm) ?_
        rw [← List.append_assoc]
        refine List.Perm.trans (List.Perm.append_right _ List.perm_append_comm) ?_
        exact List.Perm.append_right _ (List.perm_cons_erase hmem).symm
      have hs1 : (respOf cfg t i).raised = false →
          (respOf cfg t i).summary.num_completed = t.summary.num_completed + 1 := fun hh =>
        hr_completed cfg.useHashing cfg.hashFn cfg.outputDir (loopUrl cfg t)
          (cfg.urls.getD i "") (cfg.outcomes.getD i FetchOutcome.error) t.fs t.summary hh
      have hs2 : (respOf cfg t i).raised = true →
          (respOf cfg t i).summary = t.summary := fun hh =>
        (hr_raised cfg.useHashing cfg.hashFn cfg.outputDir (loopUrl cfg t)
          (cfg.urls.getD i "") (cfg.outcomes.getD i FetchOutcome.error) t.fs t.summary hh).1
      have hs3 : (respOf cfg t i).summary.num_duplicates ≤
          (respOf cfg t i).summary.num_downloaded :=
        hr_dup_le cfg.useHashing cfg.hashFn cfg.outputDir (loopUrl cfg t)
          (cfg.urls.getD i "") (cfg.outcomes.getD i FetchOutcome.error) t.fs t.summary
          hInv.dup_le
      have hcc := hInv.completed_count
      refine { sem_pending := ?_, next_le := ?_, perm := ?_, completed_count := ?_,
               dup_le := ?_, lock := ?_, eff := ?_ }
      · simp only [completeStep]
        have := hInv.sem_pending
        omega
      · simpa [completeStep] using hInv.next_le
      · simpa [completeStep] using hperm'
      · simp only [completeStep, List.length_append, List.length_singleton]
        rcases hra : (respOf cfg t i).raised with _ | _
        · rw [hs1 hra]
          simp only [Bool.false_eq_true, if_false]
          omega
        · rw [hs2 hra]
          simp only [if_true]
          omega
      · simpa [completeStep] using hs3
      · intro hlr
        simp only [completeStep, Bool.or_eq_true, Bool.and_eq_true] at hlr
        rcases hlr with hlr | ⟨hnr, hcm⟩
        · exact absurd hmem (by simp [(hInv.lock hlr).2.1])
        · rw [Bool.not_eq_true'] at hnr
          have hcm' : (respOf cfg t i).summary.num_completed = cfg.urls.length := by
            simpa using hcm
          have hstep := hs1 hnr
          have hlen := hperm'.length_eq
          simp only [List.length_append, List.length_singleton, List.length_range] at hlen
          have hnle := hInv.next_le
          refine ⟨?_, ?_, ?_, ?_⟩
          · simpa [completeStep] using hcm'
          · simp only [completeStep]
            have hz : (t.pending.erase i).length = 0 := by omega
            exact List.length_eq_zero.mp hz
          · simp only [completeStep]; omega
          · simp only [completeStep, hnr]
            simp only [Bool.false_eq_true, if_false]
            omega
      · intro hle hlt'
        simp only [completeStep] at hlt'
        exfalso
        have horder := hInv.eff hle hlt'
        have hlen := hInv.perm.length_eq
        simp only [List.length_append, List.length_range, horder, List.length_nil] at hlen
        have hsp := hInv.sem_pending
        rcases hsusp with h1 | h2
        · omega
        · omega
    · rw [applyAction, if_neg hc] at h
      exact Option.noConfusion h

/-- Any predicate preserved by every enabled action holds along every
successful schedule. -/
theorem foldl_inv (cfg : JobConfig) (P : JState → Prop)
    (hstep : ∀ t a u, P t → applyAction cfg t a = some u → P u) :
    ∀ (acts : List JobAction) (t u : JState), P t →
      List.foldlM (applyAction cfg) t acts = some u → P u := by
  intro acts
  induction acts with
  | nil =>
    intro t u hP h
    simp only [List.foldlM_nil] at h
    cases h
    exact hP
  | cons a rest ih =>
    intro t u hP h
    rw [List.foldlM_cons] at h
    rcases Option.bind_eq_some.mp h with ⟨t1, h1, h2⟩
    exact ih t1 u (hstep t a t1 hP h1) h2

/-- The master invariant holds in every state reachable by a schedule. -/
theorem jobInv_of_run (cfg : JobConfig) (fs0 : FileSystem) (acts : List JobAction)
    (s : JState) (h : runActions cfg fs0 acts = some s) : JobInv cfg s :=
  foldl_inv cfg (JobInv cfg) (jobInv_step cfg) acts (initState cfg fs0) s
    (jobInv_init cfg fs0) h

/-- C1: for every job over a de-duplicated URL collection that runs to normal
completion (the completion lock was released, unblocking the final
`lock.acquire()`), each URL index is classified exactly once, the four-way
counter sum equals `len(urls)`, and `num_completed` — defined as that sum,
duplicates not counted separately — equals `len(urls)`. -/
theorem C1_every_url_classified_once (cfg : JobConfig) (fs0 : FileSystem)
    (acts : List JobAction) (s : JState)
    (hrun : runActions cfg fs0 acts = some s) (hdone : s.lockReleased = true) :
    s.summary.num_downloaded + s.summary.num_timeout + s.summary.num_status_errors +
        s.summary.num_unexpected_error = cfg.urls.length ∧
      s.summary.num_completed = cfg.urls.length ∧
      List.Perm s.completedOrder (List.range cfg.urls.length) := by
  have hInv := jobInv_of_run cfg fs0 acts s hrun
  obtain ⟨hcm, hpend, hnext, hzero⟩ := hInv.lock hdone
  refine ⟨by simpa [DownloadSummary.num_completed] using hcm, hcm, ?_⟩
  have hp := hInv.perm
  rw [hpend, hnext] at hp
  simpa using hp

theorem C1_witness :
    state1.summary.num_downloaded + state1.summary.num_timeout +
        state1.summary.num_status_errors + state1.summary.num_unexpected_error =
      cfg1.urls.length ∧
    state1.summary.num_completed = cfg1.urls.length ∧
    List.Perm state1.completedOrder (List.range cfg1.urls.length) :=
  C1_every_url_classified_once cfg1 fsOut acts1 state1 rfl rfl

/-- C9: in every reachable state of every job, `num_duplicates` never exceeds
`num_downloaded`: both start at zero and the classifier only increments
`num_duplicates` together with `num_downloaded`. -/
theorem C9_duplicates_le_downloaded (cfg : JobConfig) (fs0 : FileSystem)
    (acts : List JobAction) (s : JState) (hrun : runActions cfg fs0 acts = some s) :
    s.summary.num_duplicates ≤ s.summary.num_downloaded :=
  (jobInv_of_run cfg fs0 acts s hrun).dup_le

theorem C9_witness : state1.summary.num_duplicates ≤ state1.summary.num_downloaded :=
  C9_duplicates_le_downloaded cfg1 fsOut acts1 state1 rfl

/-- C3: in every reachable state, at most `num_concurrent` fetch tasks are in
flight, and also at most `len(urls)`; a further admission is only possible
while a slot is free (fewer than `num_concurrent` in flight); and when
`num_concurrent ≥ len(urls)` the loop never suspends on the semaphore, so
before admission ends the in-flight count equals the number admitted — the
effective concurrency reaches exactly `len(urls)`. -/
theorem C3_bounded_concurrency (cfg : JobConfig) (fs0 : FileSystem)
    (acts : List JobAction) (s : JState) (hrun : runActions cfg fs0 acts = some s) :
    s.pending.length ≤ cfg.numConcurrent ∧
    s.pending.length ≤ cfg.urls.length ∧
    ((applyAction cfg s JobAction.spawn).isSome = true →
      s.pending.length < cfg.numConcurrent) ∧
    (cfg.urls.length ≤ cfg.numConcurrent → s.nextIndex < cfg.urls.length →
      s.pending.length = s.nextIndex) := by
  have hInv := jobInv_of_run cfg fs0 acts s hrun
  have hsp := hInv.sem_pending
  have hlen := hInv.perm.length_eq
  simp only [List.length_append, List.length_range] at hlen
  have hnle := hInv.next_le
  refine ⟨by omega, by omega, ?_, ?_⟩
  · intro hspawn
    by_cases hc : s.nextIndex < cfg.urls.length ∧ 0 < s.sem
    · omega
    · rw [applyAction, if_neg hc] at hspawn
      simp at hspawn
  · intro hle hlt
    have horder := hInv.eff hle hlt
    rw [horder] at hlen
    simp at hlen
    omega

theorem C3_witness :
    state3.pending.length ≤ cfgAB.numConcurrent ∧
    state3.pending.length ≤ cfgAB.urls.length ∧
    ((applyAction cfgAB state3 JobAction.spawn).isSome = true →
      state3.pending.length < cfgAB.numConcurrent) ∧
    (cfgAB.urls.length ≤ cfgAB.numConcurrent → state3.nextIndex < cfgAB.urls.length →
      state3.pending.length = state3.nextIndex) :=
  C3_bounded_concurrency cfgAB fsOut [JobAction.spawn] state3 rfl

/-- C2: for a successful fetch with acceptable status, the collision branch
increments `num_duplicates` and `num_downloaded` by one each and performs no
write, while the no-collision branch increments only `num_downloaded` and
writes the full body at the destination path. -/
theorem C2_collision_vs_write (uh : Bool) (hf : Bytes → String) (od lu fu : String)
    (st : Nat) (body : Bytes) (fs : FileSystem) (s : DownloadSummary)
    (hst : is_success st = true) :
    (pathExists fs (joinPath od (destName uh hf lu body)) = true →
      handle_response uh hf od lu fu (FetchOutcome.success st body) fs s =
        ⟨{ s with
            num_duplicates := s.num_duplicates + 1,
            num_downloaded := s.num_downloaded + 1 }, fs,
          [LogEvent.warnExists (joinPath od (destName uh hf lu body))], false⟩) ∧
    (pathExists fs (joinPath od (destName uh hf lu body)) = false →
      fs.failWrites.contains (joinPath od (destName uh hf lu body)) = false →
      handle_response uh hf od lu fu (FetchOutcome.success st body) fs s =
        ⟨{ s with num_downloaded := s.num_downloaded + 1 },
          { fs with files := (joinPath od (destName uh hf lu body), body) :: fs.files },
          [], false⟩) :=
  ⟨fun hex => handle_response_dup uh hf od lu fu st body fs s hst hex,
   fun hex hfw => handle_response_write uh hf od lu fu st body fs s hst hex hfw⟩

theorem C2_witness :
    handle_response false dummyHash "out" urlA urlA (FetchOutcome.success 200 [1])
        fsColl zeroSummary =
      ⟨⟨1, 1, 0, 0, 0⟩, fsColl, [LogEvent.warnExists "out/a.txt"], false⟩ ∧
    handle_response false dummyHash "out" urlA urlA (FetchOutcome.success 200 [1])
        fsOut zeroSummary =
      ⟨⟨1, 0, 0, 0, 0⟩, ⟨[("out/a.txt", [1])], ["out"], []⟩, [], false⟩ :=
  ⟨(C2_collision_vs_write false dummyHash "out" urlA urlA 200 [1] fsColl zeroSummary
      (by decide)).1 (by decide),
   (C2_collision_vs_write false dummyHash "out" urlA urlA 200 [1] fsOut zeroSummary
      (by decide)).2 (by decide) (by decide)⟩

/-- C10: a successful fetch of a URL whose parsed path is empty or `/`, with
hashing disabled, yields destination path equal to the output directory
itself; since that directory exists, the outcome lands in the collision
branch — `num_duplicates` and `num_downloaded` are each incremented and
nothing is written. -/
theorem C10_root_path_counts_as_duplicate (hf : Bytes → String) (od url : String)
    (st : Nat) (body : Bytes) (fs : FileSystem) (s : DownloadSummary)
    (hpath : urlparsePath url = "" ∨ urlparsePath url = "/")
    (hst : is_success st = true)
    (hdir : od ∈ fs.dirs) :
    handle_response false hf od url url (FetchOutcome.success st body) fs s =
      ⟨{ s with
          num_duplicates := s.num_duplicates + 1,
          num_downloaded := s.num_downloaded + 1 }, fs,
        [LogEvent.warnExists od], false⟩ := by
  have hname : destName false hf url body = "" := by
    rcases hpath with h | h <;> · simp only [destName, Bool.false_eq_true, if_false]; rw [h]; decide
  have hjoin : joinPath od (destName false hf url body) = od := by
    rw [hname]; simp [joinPath]
  have hex : pathExists fs od = true := by
    simp only [pathExists, Bool.or_eq_true]
    exact Or.inl (by simpa using hdir)
  have hd := handle_response_dup false hf od url url st body fs s hst (by rw [hjoin]; exact hex)
  rw [hjoin] at hd
  exact hd

theorem C10_witness :
    handle_response false dummyHash "out" "http://example.com" "http://example.com"
        (FetchOutcome.success 200 [5]) fsOut zeroSummary =
      ⟨⟨1, 1, 0, 0, 0⟩, fsOut, [LogEvent.warnExists "out"], false⟩ :=
  C10_root_path_counts_as_duplicate dummyHash "out" "http://example.com" 200 [5] fsOut
    zeroSummary (Or.inl (by decide)) (by decide) (by decide)

/-- C4 (falsified by the code): the callback closes over the admission-loop
variable `url`, which Python binds late, so on this two-URL job — both
admitted before either completes — the fetch of `urlA` (body `[1]`) that
completes first is stored under the filename derived from `urlB`:
the run ends with the single file `out/b.txt` holding `[1]`, no `out/a.txt`
at all, and the second fetch miscounted as a duplicate. -/
theorem C4_filename_from_loop_variable :
    (runActions cfgAB fsOut acts4).map
      (fun s => (s.fs.files, s.summary.num_downloaded, s.summary.num_duplicates,
        s.lockReleased)) =
    some ([("out/b.txt", [1])], 2, 1, true) := by decide

/-- C7 (falsified by the code): the timeout of task 0 (`urlA`) does increment
`num_timeout` by one, emits exactly one warning and writes nothing — but the
warning names `urlB`, the value of the closed-over loop variable, not the URL
of the timed-out fetch. -/
theorem C7_timeout_warning_names_wrong_url :
    (runActions cfg7 fsOut acts7).map
      (fun s => (s.logs, s.summary.num_timeout, s.fs.files)) =
    some ([LogEvent.warnTimeout urlB], 1, []) := by decide

/-- C8 (falsified by the code): on the empty URL collection no action is ever
enabled, so the only reachable state is the initial one, in which the
completion lock has not been released: the summary is indeed all zeros, but
the final `await lock.acquire()` blocks forever — `download_urls` deadlocks
instead of returning. -/
theorem C8_empty_urls_deadlock (acts : List JobAction) (s : JState)
    (hrun : runActions cfg8 fsOut acts = some s) :
    s = initState cfg8 fsOut ∧ s.lockReleased = false ∧ s.summary = zeroSummary := by
  cases acts with
  | nil =>
    simp only [runActions, List.foldlM_nil] at hrun
    cases hrun
    exact ⟨rfl, rfl, rfl⟩
  | cons a rest =>
    exfalso
    rw [runActions, List.foldlM_cons] at hrun
    have hnone : applyAction cfg8 (initState cfg8 fsOut) a = none := by
      cases a with
      | spawn => simp [applyAction, initState, cfg8]
      | complete i => simp [applyAction, initState]
    rw [hnone] at hrun
    simp at hrun

theorem C8_witness :
    initState cfg8 fsOut = initState cfg8 fsOut ∧
      (initState cfg8 fsOut).lockReleased = false ∧
      (initState cfg8 fsOut).summary = zeroSummary :=
  C8_empty_urls_deadlock [] (initState cfg8 fsOut) rfl

/-- In a two-URL all-success job, the loop variable seen by any callback is
always the second URL (the loop assigns `url` before suspending), so every
completion names the same destination; the first completion writes its body
there and the second is counted as a duplicate.  This invariant is preserved
by every enabled action. -/
theorem dupInv_preserved (u1 u2 od : String) (hf : Bytes → String) (st1 st2 : Nat)
    (b1 b2 : Bytes) (n : Nat) (fs0 : FileSystem)
    (hok1 : is_success st1 = true) (hok2 : is_success st2 = true)
    (hfresh : pathExists fs0 (joinPath od (pathName (urlparsePath u2))) = false)
    (hfail : fs0.failWrites.contains (joinPath od (pathName (urlparsePath u2))) = false)
    (t : JState) (a : JobAction) (u : JState)
    (hP : JobInv (cfg5 u1 u2 hf st1 st2 b1 b2 n od) t ∧ dupInv od u2 b1 b2 fs0 t)
    (h : applyAction (cfg5 u1 u2 hf st1 st2 b1 b2 n od) t a = some u) :
    JobInv (cfg5 u1 u2 hf st1 st2 b1 b2 n od) u ∧ dupInv od u2 b1 b2 fs0 u := by
  refine ⟨jobInv_step _ t a u hP.1 h, ?_⟩
  cases a with
  | spawn =>
    by_cases hc : t.nextIndex < (cfg5 u1 u2 hf st1 st2 b1 b2 n od).urls.length ∧ 0 < t.sem
    · rw [applyAction, if_pos hc] at h
      injection h with h
      subst h
      exact hP.2
    · rw [applyAction, if_neg hc] at h
      exact Option.noConfusion h
  | complete i =>
    by_cases hc : (t.nextIndex = (cfg5 u1 u2 hf st1 st2 b1 b2 n od).urls.length ∨ t.sem = 0) ∧
        i ∈ t.pending
    · rw [applyAction, if_pos hc] at h
      injection h with h
      subst h
      obtain ⟨hsusp, hmem⟩ := hc
      have hilt : i < t.nextIndex :=
        List.mem_range.mp (hP.1.perm.mem_iff.mp (List.mem_append_left _ hmem))
      have hnle : t.nextIndex ≤ 2 := by simpa [cfg5] using hP.1.next_le
      have hi2 : i < 2 := by omega
      have hloop : loopUrl (cfg5 u1 u2 hf st1 st2 b1 b2 n od) t = u2 := by
        have hmin : min t.nextIndex ((cfg5 u1 u2 hf st1 st2 b1 b2 n od).urls.length - 1) = 1 := by
          simp only [cfg5, List.length_cons, List.length_singleton, List.length_nil]
          omega
        rw [loopUrl, hmin]
        simp [cfg5]
      have houts : (cfg5 u1 u2 hf st1 st2 b1 b2 n od).outcomes.getD i FetchOutcome.error =
          FetchOutcome.success (if i = 0 then st1 else st2) (if i = 0 then b1 else b2) := by
        interval_cases i <;> simp [cfg5]
      have hok : is_success (if i = 0 then st1 else st2) = true := by
        by_cases hi0 : i = 0
        · simp [hi0, hok1]
        · simp [hi0, hok2]
      have hdest : destName false hf u2 (if i = 0 then b1 else b2) =
          pathName (urlparsePath u2) := by
        simp [destName]
      rcases hP.2 with ⟨h1, h2, h3⟩ | ⟨k, hk, h1, h2, h3⟩ | ⟨k, j, hk, h1, h2, h3⟩
      · have hw := handle_response_write false hf od u2
          ((cfg5 u1 u2 hf st1 st2 b1 b2 n od).urls.getD i "")
          (if i = 0 then st1 else st2) (if i = 0 then b1 else b2) fs0 zeroSummary hok
          (by rw [hdest]; exact hfresh) (by rw [hdest]; exact hfail)
        rw [hdest] at hw
        have hresp : respOf (cfg5 u1 u2 hf st1 st2 b1 b2 n od) t i =
            ⟨⟨1, 0, 0, 0, 0⟩,
              { fs0 with files :=
                (joinPath od (pathName (urlparsePath u2)), if i = 0 then b1 else b2) ::
                  fs0.files }, [], false⟩ := by
          rw [respOf, hloop, houts, h2, h3]
          rw [show (cfg5 u1 u2 hf st1 st2 b1 b2 n od).useHashing = false from rfl,
            show (cfg5 u1 u2 hf st1 st2 b1 b2 n od).hashFn = hf from rfl,
            show (cfg5 u1 u2 hf st1 st2 b1 b2 n od).outputDir = od from rfl]
          rw [hw]
          rfl
        refine Or.inr (Or.inl ⟨i, hi2, ?_, ?_, ?_⟩)
        · simp [completeStep, h1]
        · simp [completeStep, hresp]
        · simp [completeStep, hresp]
      · have hexists : pathExists
            { fs0 with files :=
              (joinPath od (pathName (urlparsePath u2)), if k = 0 then b1 else b2) ::
                fs0.files } (joinPath od (pathName (urlparsePath u2))) = true := by
          simp [pathExists]
        have hw := handle_response_dup false hf od u2
          ((cfg5 u1 u2 hf st1 st2 b1 b2 n od).urls.getD i "")
          (if i = 0 then st1 else st2) (if i = 0 then b1 else b2)
          { fs0 with files :=
            (joinPath od (pathName (urlparsePath u2)), if k = 0 then b1 else b2) ::
              fs0.files } ⟨1, 0, 0, 0, 0⟩ hok (by rw [hdest]; exact hexists)
        rw [hdest] at hw
        have hresp : respOf (cfg5 u1 u2 hf st1 st2 b1 b2 n od) t i =
            ⟨⟨2, 1, 0, 0, 0⟩,
              { fs0 with files :=
                (joinPath od (pathName (urlparsePath u2)), if k = 0 then b1 else b2) ::
                  fs0.files },
              [LogEvent.warnExists (joinPath od (pathName (urlparsePath u2)))], false⟩ := by
          rw [respOf, hloop, houts, h2, h3]
          rw [show (cfg5 u1 u2 hf st1 st2 b1 b2 n od).useHashing = false from rfl,
            show (cfg5 u1 u2 hf st1 st2 b1 b2 n od).hashFn = hf from rfl,
            show (cfg5 u1 u2 hf st1 st2 b1 b2 n od).outputDir = od from rfl]
          rw [hw]
        refine Or.inr (Or.inr ⟨k, i, hk, ?_, ?_, ?_⟩)
        · simp [completeStep, h1]
        · simp [completeStep, hresp]
        · simp [completeStep, hresp]
      · exfalso
        have hlen := hP.1.perm.length_eq
        rw [h1] at hlen
        simp only [List.length_append, List.length_cons, List.length_nil,
          List.length_range] at hlen
        have hpl : 0 < t.pending.length := List.length_pos.mpr (List.ne_nil_of_mem hmem)
        omega
    · rw [applyAction, if_neg hc] at h
      exact Option.noConfusion h

/-- C5: in any job of two URLs that map to the same (non-hashed) destination
filename, when both fetches succeed and the job completes, exactly one
filesystem write occurred (exactly one entry was added), `num_duplicates`
grew by exactly one, `num_downloaded` by two, and the single file on disk
holds the body of the first-completing fetch, whichever of the two URLs
completed first. -/
theorem C5_same_filename_single_write (u1 u2 od : String) (hf : Bytes → String)
    (st1 st2 : Nat) (b1 b2 : Bytes) (n : Nat) (fs0 : FileSystem)
    (acts : List JobAction) (s : JState)
    (hname : pathName (urlparsePath u1) = pathName (urlparsePath u2))
    (hok1 : is_success st1 = true) (hok2 : is_success st2 = true)
    (hfresh : pathExists fs0 (joinPath od (pathName (urlparsePath u2))) = false)
    (hfail : fs0.failWrites.contains (joinPath od (pathName (urlparsePath u2))) = false)
    (hrun : runActions (cfg5 u1 u2 hf st1 st2 b1 b2 n od) fs0 acts = some s)
    (hdone : s.lockReleased = true) :
    (s.completedOrder = [0, 1] ∨ s.completedOrder = [1, 0]) ∧
    s.fs.files = (joinPath od (pathName (urlparsePath u1)),
        if s.completedOrder.headD 0 = 0 then b1 else b2) :: fs0.files ∧
    s.summary.num_downloaded = 2 ∧ s.summary.num_duplicates = 1 ∧
    s.summary.num_timeout = 0 ∧ s.summary.num_status_errors = 0 ∧
    s.summary.num_unexpected_error = 0 := by
  have hP : JobInv (cfg5 u1 u2 hf st1 st2 b1 b2 n od) s ∧ dupInv od u2 b1 b2 fs0 s :=
    foldl_inv (cfg5 u1 u2 hf st1 st2 b1 b2 n od)
      (fun t => JobInv (cfg5 u1 u2 hf st1 st2 b1 b2 n od) t ∧ dupInv od u2 b1 b2 fs0 t)
      (fun t a u hPt hstep =>
        dupInv_preserved u1 u2 od hf st1 st2 b1 b2 n fs0 hok1 hok2 hfresh hfail
          t a u hPt hstep)
      acts (initState (cfg5 u1 u2 hf st1 st2 b1 b2 n od) fs0) s
      ⟨jobInv_init _ _, Or.inl ⟨rfl, rfl, rfl⟩⟩ hrun
  obtain ⟨hInv, hD⟩ := hP
  obtain ⟨hcm, hpend, hnext, hzero⟩ := hInv.lock hdone
  have hoperm : List.Perm s.completedOrder (List.range 2) := by
    have hp := hInv.perm
    rw [hpend, hnext] at hp
    simpa [cfg5] using hp
  have holen : s.completedOrder.length = 2 := by simpa using hoperm.length_eq
  rcases hD with ⟨h1, _, _⟩ | ⟨k, _, h1, _, _⟩ | ⟨k, j, hk, h1, h2, h3⟩
  · rw [h1] at holen
    simp at holen
  · rw [h1] at holen
    simp at holen
  · have hj : j < 2 := by
      have hjm : j ∈ List.range 2 := hoperm.subset (by rw [h1]; simp)
      simpa using hjm
    have hknj : k ≠ j := by
      have hnd : s.completedOrder.Nodup := hoperm.nodup_iff.mpr (List.nodup_range 2)
      rw [h1] at hnd
      simp at hnd
      exact hnd
    refine ⟨?_, ?_, ?_, ?_, ?_, ?_, ?_⟩
    · rcases (show k = 0 ∧ j = 1 ∨ k = 1 ∧ j = 0 by omega) with ⟨hk0, hj1⟩ | ⟨hk1, hj0⟩
      · exact Or.inl (by rw [h1, hk0, hj1])
      · exact Or.inr (by rw [h1, hk1, hj0])
    · rw [h1, h2, hname]
      simp
    · simp [h3]
    · simp [h3]
    · simp [h3]
    · simp [h3]
    · simp [h3]

theorem C5_witness :
    (state5.completedOrder = [0, 1] ∨ state5.completedOrder = [1, 0]) ∧
    state5.fs.files = (joinPath "out" (pathName (urlparsePath "http://a/f.txt")),
        if state5.completedOrder.headD 0 = 0 then [1] else [2]) :: fsOut.files ∧
    state5.summary.num_downloaded = 2 ∧ state5.summary.num_duplicates = 1 ∧
    state5.summary.num_timeout = 0 ∧ state5.summary.num_status_errors = 0 ∧
    state5.summary.num_unexpected_error = 0 :=
  C5_same_filename_single_write "http://a/f.txt" "http://b/f.txt" "out" dummyHash
    200 200 [1] [2] 2 fsOut acts4 state5 (by decide) (by decide) (by decide)
    (by decide) (by decide) rfl rfl

/-- In the one-URL job on a disk where the destination write raises, every
callback dies at `write_bytes`: no counter moves, no warning or error line is
emitted through `LOG`, and the completion-lock check is skipped. -/
theorem writeFail_step (t : JState) (a : JobAction) (u : JState)
    (hP : JobInv cfg6 t ∧
      (t.summary = zeroSummary ∧ t.fs = fsFail ∧ t.logs = [] ∧ t.lockReleased = false))
    (h : applyAction cfg6 t a = some u) :
    JobInv cfg6 u ∧
      (u.summary = zeroSummary ∧ u.fs = fsFail ∧ u.logs = [] ∧ u.lockReleased = false) := by
  refine ⟨jobInv_step _ t a u hP.1 h, ?_⟩
  cases a with
  | spawn =>
    by_cases hc : t.nextIndex < cfg6.urls.length ∧ 0 < t.sem
    · rw [applyAction, if_pos hc] at h
      injection h with h
      subst h
      exact hP.2
    · rw [applyAction, if_neg hc] at h
      exact Option.noConfusion h
  | complete i =>
    by_cases hc : (t.nextIndex = cfg6.urls.length ∨ t.sem = 0) ∧ i ∈ t.pending
    · rw [applyAction, if_pos hc] at h
      injection h with h
      subst h
      obtain ⟨hsusp, hmem⟩ := hc
      have hilt : i < t.nextIndex :=
        List.mem_range.mp (hP.1.perm.mem_iff.mp (List.mem_append_left _ hmem))
      have hnle : t.nextIndex ≤ 1 := by simpa [cfg6] using hP.1.next_le
      have hi0 : i = 0 := by omega
      have hloop : loopUrl cfg6 t = urlA := by
        simp [loopUrl, cfg6]
      obtain ⟨hsum, hfs, hlogs, hlock⟩ := hP.2
      have hresp : respOf cfg6 t i = ⟨zeroSummary, fsFail, [], true⟩ := by
        rw [respOf, hloop, hi0, hfs, hsum]
        decide
      refine ⟨?_, ?_, ?_, ?_⟩
      · simp [completeStep, hresp]
      · simp [completeStep, hresp]
      · simp [completeStep, hresp, hlogs]
      · simp [completeStep, hresp, hlock]
    · rw [applyAction, if_neg hc] at h
      exact Option.noConfusion h

/-- C6 (falsified by the code): when the filesystem write fails, the
exception is NOT classified — `write_bytes` sits outside the `try`, so
`num_unexpected_error` stays 0, no `LOG` error line is produced, the outcome
is never counted (`num_completed` stays 0), and the completion lock is never
released: instead of continuing with the remaining URLs, `download_urls`
hangs forever in the final `lock.acquire()`. -/
theorem C6_write_failure_not_classified (acts : List JobAction) (s : JState)
    (hrun : runActions cfg6 fsFail acts = some s) :
    s.summary.num_unexpected_error = 0 ∧ s.summary.num_completed = 0 ∧
      s.logs = [] ∧ s.lockReleased = false := by
  have hP := foldl_inv cfg6
    (fun t => JobInv cfg6 t ∧
      (t.summary = zeroSummary ∧ t.fs = fsFail ∧ t.logs = [] ∧ t.lockReleased = false))
    writeFail_step acts (initState cfg6 fsFail) s
    ⟨jobInv_init _ _, rfl, rfl, rfl, rfl⟩ hrun
  obtain ⟨_, hsum, _, hlogs, hlock⟩ := hP
  exact ⟨by simp [hsum, zeroSummary],
    by simp [hsum, zeroSummary, DownloadSummary.num_completed], hlogs, hlock⟩

theorem C6_witness :
    state6.summary.num_unexpected_error = 0 ∧ state6.summary.num_completed = 0 ∧
      state6.logs = [] ∧ state6.lockReleased = false :=
  C6_write_failure_not_classified [JobAction.spawn, JobAction.complete 0] state6 rfl
